import Mathlib

/-!
Verification of the Universal Markdown Audio Transcription System
(`src/transcription_system.py`, `src/config.py`).

The development shallowly embeds the link-injection engine, media
discovery, transcription adapter and run coordinator.  The Python code
builds regular-expression strings and matches them with `re.search` /
`re.sub` under `re.IGNORECASE`; we embed the fragment of Python's regex
language that the generated patterns use (case-insensitive literals,
escaped characters, `.`, lazy `.*?`, greedy `*`, and a capturing group)
as a small backtracking matcher whose alternative order coincides with
the backtracking order of Python's engine (leftmost match, lazy star
tries the shortest extent first).  All functions are fuel-structured so
that they evaluate inside the kernel.
-/

/-- Abstract syntax of the regex fragment generated by the system.
`char` is matched case-insensitively, mirroring `re.IGNORECASE`. -/
inductive RE where
  | eps
  | char (c : Char)
  | any
  | starLazy (r : RE)
  | star (r : RE)
  | seq (a b : RE)
  | group (r : RE)
deriving DecidableEq, Repr

/-- Structural size of a regex, used to bound matcher fuel. -/
def reSize : RE → Nat
  | .eps => 1
  | .char _ => 1
  | .any => 1
  | .starLazy r => reSize r + 1
  | .star r => reSize r + 1
  | .seq a b => reSize a + reSize b + 1
  | .group r => reSize r + 1

/-- The regex denoting a literal character sequence (each character
matched case-insensitively); used to characterize compiled escaped
patterns. -/
def litSeq (L : List Char) : RE :=
  L.foldr (fun c r => .seq (.char c) r) .eps

/-- Backtracking matcher: all ways `r` can match a prefix of `s`, as the
list of remaining suffixes, in the preference order of Python's engine
(a lazy star yields the zero-width alternative first, a greedy star
last).  `char` compares case-insensitively (`re.IGNORECASE`); `any` is
`.`, which does not match a newline. -/
def matchL : Nat → RE → List Char → List (List Char)
  | 0, _, _ => []
  | fuel + 1, re, s =>
    match re with
    | .eps => [s]
    | .char c =>
      match s with
      | [] => []
      | x :: xs => if x.toLower = c.toLower then [xs] else []
    | .any =>
      match s with
      | [] => []
      | x :: xs => if x = '\n' then [] else [xs]
    | .group r => matchL fuel r s
    | .seq a b => (matchL fuel a s).flatMap (matchL fuel b)
    | .starLazy r =>
      s :: (matchL fuel r s).flatMap (fun s' =>
        if s'.length < s.length then matchL fuel (.starLazy r) s' else [])
    | .star r =>
      ((matchL fuel r s).flatMap (fun s' =>
        if s'.length < s.length then matchL fuel (.star r) s' else [])) ++ [s]

/-- Matcher with sufficient fuel: every recursive call of `matchL`
strictly decreases `reSize r + s.length`, so this fuel is adequate. -/
def matchList (r : RE) (s : List Char) : List (List Char) :=
  matchL (reSize r + s.length + 1) r s

/-- Leftmost match of `r` in `s` in Python backtracking order: returns
`(before, matched, rest)` with `s = before ++ matched ++ rest`, trying
positions left to right and, at the first position with any match, the
engine-preferred alternative. -/
def firstMatch (r : RE) : List Char → Option (List Char × List Char × List Char)
  | [] =>
    match (matchList r []).head? with
    | some rest => some ([], [], rest)
    | none => none
  | c :: cs =>
    match (matchList r (c :: cs)).head? with
    | some rest =>
      some ([], (c :: cs).take ((c :: cs).length - rest.length), rest)
    | none =>
      match firstMatch r cs with
      | some (b, m, rest) => some (c :: b, m, rest)
      | none => none

/-- Embedding of `re.search(pattern, s, re.IGNORECASE)` truthiness. -/
def research (r : RE) (s : String) : Bool :=
  (firstMatch r s.data).isSome

/-- Embedding of Python `str.replace(needle, rep)`: left-to-right,
non-overlapping, every occurrence.  Fuel `s.length` is adequate since
each step consumes at least one character. -/
def replaceL : Nat → List Char → List Char → List Char → List Char
  | 0, _, _, s => s
  | fuel + 1, needle, rep, s =>
    match s with
    | [] => []
    | c :: rest =>
      if needle.isPrefixOf (c :: rest) ∧ needle ≠ [] then
        rep ++ replaceL fuel needle rep (rest.drop (needle.length - 1))
      else c :: replaceL fuel needle rep rest

/-- `str.replace` on strings. -/
def replaceAll (s needle rep : String) : String :=
  String.mk (replaceL s.data.length needle.data rep.data s.data)

/-- Expansion of a `re.sub` replacement template on one match: every
occurrence of `\x5c1` is replaced by the text of group 1.  Every
replacement pattern the system generates wraps the entire regex in one
group, so group 1 is the whole match; the generated templates contain
no other escape sequences. -/
def expandTemplate (matched tmpl : List Char) : List Char :=
  replaceL tmpl.length ['\\', '1'] matched tmpl

/-- Embedding of `re.sub(pattern, repl, s, flags=re.IGNORECASE)` with no
count: replaces every non-overlapping leftmost match.  The generated
patterns never match the empty string, so fuel `s.length + 1` is
adequate. -/
def resubGo : Nat → RE → List Char → List Char → List Char
  | 0, _, _, s => s
  | fuel + 1, r, repl, s =>
    match firstMatch r s with
    | none => s
    | some (b, m, rest) => b ++ expandTemplate m repl ++ resubGo fuel r repl rest

/-- `re.sub` on strings. -/
def resubS (r : RE) (repl : String) (s : String) : String :=
  String.mk (resubGo (s.data.length + 1) r repl.data s.data)

/-- Tokens of the pattern language. -/
inductive Tok where
  | tchar (c : Char)
  | tany
  | topen
  | tclose
  | tstar
  | tstarLazy
deriving DecidableEq, Repr

/-- Fueled lexer for the generated pattern strings: `\x5cc` is an
escaped literal, `(` `)` group, `.` any, `*?` lazy star, `*` greedy
star, anything else a literal. -/
def lexPatF : Nat → List Char → List Tok
  | 0, _ => []
  | _ + 1, [] => []
  | fuel + 1, c :: rest =>
    if c = '\\' then
      match rest with
      | [] => []
      | d :: rest2 => .tchar d :: lexPatF fuel rest2
    else if c = '(' then .topen :: lexPatF fuel rest
    else if c = ')' then .tclose :: lexPatF fuel rest
    else if c = '.' then .tany :: lexPatF fuel rest
    else if c = '*' then
      match rest with
      | '?' :: rest2 => .tstarLazy :: lexPatF fuel rest2
      | _ => .tstar :: lexPatF fuel rest
    else .tchar c :: lexPatF fuel rest

/-- Lexer with sufficient fuel (each step consumes a character). -/
def lexPat (l : List Char) : List Tok :=
  lexPatF l.length l

/-- Attach a postfix star to a parsed atom, if present. -/
def applyStar (atom : RE) : List Tok → RE × List Tok
  | .tstarLazy :: rest => (.starLazy atom, rest)
  | .tstar :: rest => (.star atom, rest)
  | rest => (atom, rest)

/-- Recursive-descent parser for the token stream.  Fuel `tokens + 1`
is adequate: every recursive call consumes at least one token. -/
def parseToks : Nat → List Tok → RE × List Tok
  | 0, ts => (.eps, ts)
  | _ + 1, [] => (.eps, [])
  | _ + 1, .tclose :: rest => (.eps, .tclose :: rest)
  | fuel + 1, .topen :: rest =>
    let (inner, r1) := parseToks fuel rest
    let r2 := match r1 with
      | .tclose :: t2 => t2
      | l => l
    let (atom, r3) := applyStar (.group inner) r2
    let (tail, r4) := parseToks fuel r3
    (.seq atom tail, r4)
  | fuel + 1, .tchar c :: rest =>
    let (atom, r3) := applyStar (.char c) rest
    let (tail, r4) := parseToks fuel r3
    (.seq atom tail, r4)
  | fuel + 1, .tany :: rest =>
    let (atom, r3) := applyStar .any rest
    let (tail, r4) := parseToks fuel r3
    (.seq atom tail, r4)
  | fuel + 1, .tstar :: rest =>
    let (tail, r4) := parseToks fuel rest
    (.seq (.char '*') tail, r4)
  | fuel + 1, .tstarLazy :: rest =>
    let (tail, r4) := parseToks fuel rest
    (.seq (.char '*') tail, r4)

/-- Compile a pattern string to a regex. -/
def compile (p : String) : RE :=
  (parseToks (p.data.length + 1) (lexPat p.data)).1

/-- The characters `re.escape` escapes (Python ≥ 3.7). -/
def reSpecial : List Char :=
  ['(', ')', '[', ']', '{', '}', '?', '*', '+', '-', '|', '^', '$',
   '\\', '.', '&', '~', '#', ' ', '\t', '\n', '\r', '\x0b', '\x0c']

/-- Embedding of `re.escape` on character lists. -/
def reEscape (l : List Char) : List Char :=
  l.flatMap (fun c => if c ∈ reSpecial then ['\\', c] else [c])

/-- Embedding of `re.escape` on strings. -/
def reEscapeS (s : String) : String :=
  String.mk (reEscape s.data)

/-- Number of positions at which `needle` occurs in `hay` (occurrences
of a substring, counted at every starting position). -/
def countSub (needle : List Char) : List Char → Nat
  | [] => if needle = [] then 1 else 0
  | c :: rest =>
    (if needle.isPrefixOf (c :: rest) then 1 else 0) + countSub needle rest

/-- Embedding of Python's case-sensitive substring test `needle in hay`. -/
def containsSubstrB (hay needle : String) : Bool :=
  decide (needle.data <:+: hay.data)

/-- Embedding of Python `str.lower()`: character-wise lowering. -/
def strToLower (s : String) : String :=
  String.mk (s.data.map Char.toLower)

/-- Index of the last `.` in a name, if any (`str.rfind('.')`). -/
def rfindDot (l : List Char) : Option Nat :=
  match l.reverse.findIdx? (fun c => c = '.') with
  | none => none
  | some j => some (l.length - 1 - j)

/-- Embedding of `pathlib.PurePath.suffix`: the extension including the
dot; empty for names whose only dot leads (`.bashrc`) or trails. -/
def fileSuffix (name : String) : String :=
  match rfindDot name.data with
  | none => ""
  | some i =>
    if 0 < i ∧ i < name.data.length - 1 then String.mk (name.data.drop i) else ""

/-- Embedding of `pathlib.PurePath.stem`: the name minus `fileSuffix`. -/
def fileStem (name : String) : String :=
  match rfindDot name.data with
  | none => name
  | some i =>
    if 0 < i ∧ i < name.data.length - 1 then String.mk (name.data.take i) else name

/-! ## Configuration (`src/config.py`) -/

/-- The `link_format_style` configuration value. -/
inductive LinkStyle where
  | wikilink
  | standard
  | custom
deriving DecidableEq, Repr

/-- The configuration values the core consumes.  `linkTemplate` embeds
the external link-template collaborator: `some t` is a loaded template
on which `str.format` succeeds, `none` is any load or format failure
(the `except` branch of `generate_link_format`). -/
structure Config where
  vaultPath : String
  audioFolderName : String
  transcriptsFolderName : String
  supportedExtensions : List String
  linkFormatStyle : LinkStyle
  prefixText : String
  linkTemplate : Option String
  skipExistingTranscripts : Bool
  autoMoveFiles : Bool
deriving Repr

/-- `ConfigManager.get_audio_folder`: `<vault>/<audio_folder_name>`. -/
def audioFolderPath (cfg : Config) : String :=
  cfg.vaultPath ++ "/" ++ cfg.audioFolderName

/-- `ConfigManager.generate_link_format`: renders the transcript link
text for the configured style; the `custom` style formats the user
template with `audio_name` and falls back to the wikilink rendering on
any failure. -/
def generate_link_format (cfg : Config) (audio_name : String) : String :=
  match cfg.linkFormatStyle with
  | .wikilink => cfg.prefixText ++ " [[" ++ audio_name ++ "_transcript]]"
  | .standard =>
    cfg.prefixText ++ " [" ++ audio_name ++ "_transcript](" ++
      audio_name ++ "_transcript.md)"
  | .custom =>
    match cfg.linkTemplate with
    | some t => replaceAll t "{audio_name}" audio_name
    | none => cfg.prefixText ++ " [[" ++ audio_name ++ "_transcript]]"

/-! ## Pattern generation (`generate_audio_embed_patterns`,
`generate_transcript_link_replacements`) -/

/-- Direct wikilink embed pattern `!\[\[<stem><ext>\]\]` with the stem
and extension passed through `re.escape`. -/
def directEmbedPattern (audio_name ext : String) : String :=
  "!\\[\\[" ++ reEscapeS audio_name ++ reEscapeS ext ++ "\\]\\]"

/-- Folder-prefixed wikilink embed pattern: the folder variant is
interpolated verbatim (the source does not escape it). -/
def folderEmbedPattern (folder audio_name ext : String) : String :=
  "!\\[\\[" ++ folder ++ "/" ++ reEscapeS audio_name ++ reEscapeS ext ++ "\\]\\]"

/-- Standard markdown image-style embed pattern `!\[.*?\]\(<stem><ext>\)`. -/
def imageEmbedPattern (audio_name ext : String) : String :=
  "!\\[.*?\\]\\(" ++ reEscapeS audio_name ++ reEscapeS ext ++ "\\)"

/-- Folder-prefixed image-style embed pattern; the folder is again
interpolated verbatim. -/
def imageFolderEmbedPattern (folder audio_name ext : String) : String :=
  "!\\[.*?\\]\\(" ++ folder ++ "/" ++ reEscapeS audio_name ++ reEscapeS ext ++ "\\)"

/-- `generate_audio_embed_patterns`: for every supported extension, the
five search patterns, in source order. -/
def generate_audio_embed_patterns (cfg : Config) (audio_name : String) : List String :=
  cfg.supportedExtensions.flatMap (fun ext =>
    [directEmbedPattern audio_name ext,
     folderEmbedPattern (strToLower cfg.audioFolderName) audio_name ext,
     folderEmbedPattern cfg.audioFolderName audio_name ext,
     imageEmbedPattern audio_name ext,
     imageFolderEmbedPattern cfg.audioFolderName audio_name ext])

/-- A search pattern wrapped in one capturing group, as built by
`generate_transcript_link_replacements`. -/
def groupPat (p : String) : String :=
  "(" ++ p ++ ")"

/-- `generate_transcript_link_replacements`: pattern/replacement pairs,
in source order.  For every supported extension the source emits the
direct wikilink pair, the two folder-variant wikilink pairs, and the
image-style pair — but no folder-prefixed image-style pair.  Every
replacement is `\x5c1` followed by two newlines and the link text. -/
def generate_transcript_link_replacements (cfg : Config) (audio_name : String) :
    List (String × String) :=
  let transcript_link := generate_link_format cfg audio_name
  cfg.supportedExtensions.flatMap (fun ext =>
    [(groupPat (directEmbedPattern audio_name ext), "\\1\n\n" ++ transcript_link),
     (groupPat (folderEmbedPattern (strToLower cfg.audioFolderName) audio_name ext),
       "\\1\n\n" ++ transcript_link),
     (groupPat (folderEmbedPattern cfg.audioFolderName audio_name ext),
       "\\1\n\n" ++ transcript_link),
     (groupPat (imageEmbedPattern audio_name ext), "\\1\n\n" ++ transcript_link)])

/-! ## Link injection (`add_transcript_link_to_note`) -/

/-- Result of the Link Injector on one note.  The read/write-error
outcome of the source is an I/O failure outside the embedded state. -/
inductive InjectResult where
  | linked (newContent : String)
  | alreadyLinked
  | noEmbedFound
deriving DecidableEq, Repr

/-- The `for pattern, replacement in …: if re.search(…): … break` loop:
the first pair whose pattern matches the content. -/
def findMatchingPair (content : String) :
    List (String × String) → Option (String × String)
  | [] => none
  | pr :: rest =>
    if research (compile pr.1) content then some pr
    else findMatchingPair content rest

/-- `add_transcript_link_to_note`, as a pure function of the note
content: the idempotence gate checks the LinkMarker substring, then the
first matching pattern is substituted via `re.sub` (which replaces every
occurrence of that pattern). -/
def add_transcript_link_to_note (cfg : Config) (content audio_name : String) :
    InjectResult :=
  if containsSubstrB content (audio_name ++ "_transcript") then .alreadyLinked
  else
    match findMatchingPair content
        (generate_transcript_link_replacements cfg audio_name) with
    | some pr => .linked (resubS (compile pr.1) pr.2 content)
    | none => .noEmbedFound

/-- The note content after one Link Injector run (unchanged unless the
run returns `linked`). -/
def injectState (cfg : Config) (audio_name content : String) : String :=
  match add_transcript_link_to_note cfg content audio_name with
  | .linked c => c
  | _ => content

/-! ## Notes, scanning and the linking phase (`find_notes_with_audio`,
`link_transcripts_to_notes`) -/

/-- A markdown note: its parent directory name, file name, and content.
Notes that fail to read are logged and skipped by the source; the model
contains only readable notes. -/
structure Note where
  parentName : String
  name : String
  content : String
deriving DecidableEq, Repr

/-- The Note Scanner's per-note test: skip notes directly inside the
transcripts folder, otherwise search the content against every embed
pattern (first match wins, case-insensitively). -/
def noteMatchesAudio (cfg : Config) (audio_name : String) (n : Note) : Bool :=
  decide (n.parentName ≠ cfg.transcriptsFolderName) &&
    (generate_audio_embed_patterns cfg audio_name).any
      (fun p => research (compile p) n.content)

/-- `find_notes_with_audio`: all notes referencing the audio stem. -/
def find_notes_with_audio (cfg : Config) (notes : List Note) (audio_name : String) :
    List Note :=
  notes.filter (noteMatchesAudio cfg audio_name)

/-- Injection applied to one note's content. -/
def applyInject (cfg : Config) (audio_name : String) (n : Note) : Note :=
  match add_transcript_link_to_note cfg n.content audio_name with
  | .linked c => { n with content := c }
  | _ => n

/-- `glob("*_transcript.md")` membership for a transcript file name. -/
def isTranscriptFileName (name : String) : Bool :=
  "_transcript.md".data.isSuffixOf name.data

/-- The audio stem the linking phase derives from a transcript file:
`Path.stem` followed by `str.replace("_transcript", "")` — which removes
every occurrence of the substring, not only a trailing suffix. -/
def transcriptAudioName (fname : String) : String :=
  replaceAll (fileStem fname) "_transcript" ""

/-- `link_transcripts_to_notes`: for every `*_transcript.md` file, find
the notes embedding its stem and inject the link into each. -/
def link_transcripts_to_notes (cfg : Config) (transcriptFiles : List String)
    (notes : List Note) : List Note :=
  (transcriptFiles.filter isTranscriptFileName).foldl
    (fun ns tfile =>
      let audio_name := transcriptAudioName tfile
      ns.map (fun n =>
        if noteMatchesAudio cfg audio_name n then applyInject cfg audio_name n
        else n))
    notes

/-! ## Media discovery (`find_media_files`) -/

/-- A file produced by the vault walk: parent directory path and name. -/
structure FSFile where
  parent : String
  name : String
deriving DecidableEq, Repr

/-- The discovery filter for one candidate file, for a given listing of
the transcripts folder. -/
def mediaCandidate (cfg : Config) (transcripts : List String) (f : FSFile) : Bool :=
  decide (strToLower (fileSuffix f.name) ∈ cfg.supportedExtensions) &&
    decide (f.parent ≠ audioFolderPath cfg) &&
    (!(decide ((fileStem f.name ++ "_transcript.md") ∈ transcripts)) ||
      !cfg.skipExistingTranscripts)

/-- `find_media_files`: files from the walk whose lower-cased suffix is
supported, that are not already inside the audio folder, and whose
transcript either does not exist or is not skipped. -/
def find_media_files (cfg : Config) (walk : List FSFile)
    (transcripts : List String) : List FSFile :=
  walk.filter (mediaCandidate cfg transcripts)

/-! ## Transcription adapter (`transcribe_file`) and run coordinator -/

/-- One invocation of the external engine: it either runs to completion
with an exit status after writing some scratch files into the temp
directory, or the subprocess call raises (the `except` path). -/
inductive EngineOutcome where
  | runs (returncode : Int) (written : List String)
  | raises
deriving DecidableEq, Repr

/-- The mutable file-system state the coordinator touches. -/
structure Vault where
  walkFiles : List FSFile
  notes : List Note
  transcriptFiles : List String
  audioFolderFiles : List String
  tempFiles : List String
deriving DecidableEq, Repr

/-- `glob(f"{stem}.*")` membership for a temp-file name. -/
def tempGlobMatch (stem name : String) : Bool :=
  (stem ++ ".").data.isPrefixOf name.data

/-- `transcribe_file`: run the engine; on non-zero exit return `False`
at once.  If `<stem>.json` exists, build the transcript (`parseOk`
embeds `create_markdown_transcript`'s success), remove every
`<stem>.*` temp file, and on success optionally move the media into the
audio folder.  The scratch cleanup is only reachable on the
`json_file.exists()` branch. -/
def transcribe_file (cfg : Config) (engine : EngineOutcome) (parseOk : Bool)
    (file : FSFile) (w : Vault) : Bool × Vault :=
  match engine with
  | .raises => (false, w)
  | .runs returncode written =>
    let w1 := { w with tempFiles := w.tempFiles ++ written }
    if returncode ≠ 0 then (false, w1)
    else if (fileStem file.name ++ ".json") ∈ w1.tempFiles then
      let success := parseOk
      let w2 :=
        if success then
          { w1 with transcriptFiles :=
              w1.transcriptFiles ++ [fileStem file.name ++ "_transcript.md"] }
        else w1
      let w3 := { w2 with tempFiles :=
        w2.tempFiles.filter (fun n => !(tempGlobMatch (fileStem file.name) n)) }
      if success then
        if cfg.autoMoveFiles then
          (true,
           { w3 with
              walkFiles := w3.walkFiles.filter (fun g => g ≠ file),
              audioFolderFiles := w3.audioFolderFiles ++ [file.name] })
        else (true, w3)
      else (false, w3)
    else (false, w1)

/-- The run environment: lock availability, dependency presence, vault
existence, and the behaviour of the external engine per file. -/
structure RunEnv where
  cfg : Config
  lockAvailable : Bool
  whisperInstalled : Bool
  vaultExists : Bool
  engineOutcome : FSFile → EngineOutcome
  parseOk : FSFile → Bool

/-- `run`: acquire the non-blocking exclusive lock (return at once on
contention), check dependencies and the vault, discover media,
transcribe each file, then link every existing transcript into the
notes.  Logging and ownership fix-ups are external side effects outside
the embedded state. -/
def run (env : RunEnv) (w : Vault) : Vault :=
  if env.lockAvailable then
    if env.whisperInstalled then
      if env.vaultExists then
        let media := find_media_files env.cfg w.walkFiles w.transcriptFiles
        let w1 := media.foldl
          (fun acc f =>
            (transcribe_file env.cfg (env.engineOutcome f) (env.parseOk f) f acc).2)
          w
        { w1 with
            notes := link_transcripts_to_notes env.cfg w1.transcriptFiles w1.notes }
      else w
    else w
  else w

/-! ## Timestamp rendering (`create_markdown_transcript`) -/

/-- Python float `//` on non-negative operands: `math.floor(a / b)` as a
rational. -/
def pyFloorDiv (a b : ℚ) : ℚ :=
  (⌊a / b⌋ : ℚ)

/-- Python float `%`: `a - b * (a // b)`. -/
def pyMod (a b : ℚ) : ℚ :=
  a - b * pyFloorDiv a b

/-- Python `int()` on a float: truncation toward zero. -/
def pyTrunc (q : ℚ) : ℤ :=
  if 0 ≤ q then ⌊q⌋ else ⌈q⌉

/-- Python `f"{n:02d}"`: decimal, zero-padded to two digits. -/
def pad02 (n : ℤ) : String :=
  if 0 ≤ n ∧ n < 10 then "0" ++ toString n else toString n

/-- The timestamp rendered for one segment start time:
`minutes = int(start // 60)`, `seconds = int(start % 60)`,
`f"**[{minutes}:{seconds:02d}]**"`. -/
def segment_timestamp (start : ℚ) : String :=
  let minutes : ℤ := pyTrunc (pyFloorDiv start 60)
  let seconds : ℤ := pyTrunc (pyMod start 60)
  "**[" ++ toString minutes ++ ":" ++ pad02 seconds ++ "]**"

/-! ## Concrete test fixture -/

/-- A small concrete configuration with the default folder names, link
style and link text; two supported extensions keep kernel evaluation
affordable. -/
def cfgTest : Config where
  vaultPath := "vault"
  audioFolderName := "Audio"
  transcriptsFolderName := "Audio-Transcripts"
  supportedExtensions := [".mp3", ".wav"]
  linkFormatStyle := .wikilink
  prefixText := "📝 **Transcript:**"
  linkTemplate := none
  skipExistingTranscripts := true
  autoMoveFiles := true

/-- A note whose only embed of `talk` is the folder-prefixed standard
image-style form. -/
def c3note : Note where
  parentName := "vault"
  name := "note.md"
  content := "![alt](Audio/talk.mp3)"

/-- The end-to-end scenario note: body `![[talk.mp3]]`. -/
def c9note : Note where
  parentName := "vault"
  name := "note.md"
  content := "![[talk.mp3]]"

/-- The rewritten content the end-to-end scenario requires. -/
def c9linked : String :=
  "![[talk.mp3]]\n\n📝 **Transcript:** [[talk_transcript]]"

/-- A note with the same embed repeated twice. -/
def c1content : String :=
  "![[talk.mp3]] and again ![[talk.mp3]]"

/-- A note embedding the stem with a different supported extension from
the transcribed file. -/
def c10note : Note where
  parentName := "vault"
  name := "note.md"
  content := "![[interview.wav]]"

/-- Configuration whose audio folder name contains a regex
metacharacter. -/
def cfgDot : Config :=
  { cfgTest with audioFolderName := "Au.dio" }

/-- A media file fixture. -/
def fileTalk : FSFile where
  parent := "vault"
  name := "talk.mp3"

/-- An empty vault state fixture. -/
def vault0 : Vault where
  walkFiles := []
  notes := []
  transcriptFiles := []
  audioFolderFiles := []
  tempFiles := []

/-- A run environment in which the file lock is already held by another
instance. -/
def envLockBusy : RunEnv where
  cfg := cfgTest
  lockAvailable := false
  whisperInstalled := true
  vaultExists := true
  engineOutcome := fun _ => .raises
  parseOk := fun _ => true

/-- A vault state with a note, a pending transcript, and a temp file,
used to witness that lock contention leaves everything untouched. -/
def vaultBusyDemo : Vault where
  walkFiles := [fileTalk]
  notes := [c9note]
  transcriptFiles := ["talk_transcript.md"]
  audioFolderFiles := []
  tempFiles := ["talk.json"]

/-! ## Helper lemmas about replacement and injection -/

theorem isPrefixOf_eq_iff {a : Type} [BEq a] [LawfulBEq a]
    (l1 l2 : List a) : l1.isPrefixOf l2 = true ↔ l1 <+: l2 :=
  List.isPrefixOf_iff_prefix

theorem replaceL_cons_ne (fuel : Nat) (rep : List Char) (c : Char)
    (rest : List Char) (hc : c ≠ '\\') :
    replaceL (fuel + 1) ['\\', '1'] rep (c :: rest) =
      c :: replaceL fuel ['\\', '1'] rep rest := by
  have hp : (['\\', '1'].isPrefixOf (c :: rest)) = false := by
    simp [List.isPrefixOf]
    intro e
    exact absurd e.symm hc
  simp [replaceL, hp]

theorem replaceL_cons_hit (fuel : Nat) (rep : List Char) (rest : List Char) :
    replaceL (fuel + 1) ['\\', '1'] rep ('\\' :: '1' :: rest) =
      rep ++ replaceL fuel ['\\', '1'] rep rest := by
  simp [replaceL, List.isPrefixOf]

theorem replaceL_no_bs (fuel : Nat) (rep : List Char) (l : List Char)
    (h : '\\' ∉ l) : replaceL fuel ['\\', '1'] rep l = l := by
  induction fuel generalizing l with
  | zero => rfl
  | succ n ih =>
    cases l with
    | nil => rfl
    | cons c rest =>
      have hc : c ≠ '\\' := fun e => h (e ▸ List.mem_cons_self c rest)
      rw [replaceL_cons_ne n rep c rest hc,
        ih rest (fun hm => h (List.mem_cons_of_mem _ hm))]

theorem expandTemplate_marker (m link : List Char) (h : '\\' ∉ link) :
    expandTemplate m ('\\' :: '1' :: '\n' :: '\n' :: link) =
      m ++ '\n' :: '\n' :: link := by
  show replaceL (link.length + 4) ['\\', '1'] m _ = _
  rw [show link.length + 4 = link.length + 3 + 1 from rfl,
    replaceL_cons_hit,
    replaceL_cons_ne _ _ _ _ (by decide),
    replaceL_cons_ne _ _ _ _ (by decide),
    replaceL_no_bs _ _ _ h]

theorem findMatchingPair_spec (content : String) (l : List (String × String))
    (pr : String × String) (h : findMatchingPair content l = some pr) :
    pr ∈ l ∧ research (compile pr.1) content = true := by
  induction l with
  | nil => simp [findMatchingPair] at h
  | cons hd tl ih =>
    by_cases hr : research (compile hd.1) content
    · rw [findMatchingPair, if_pos hr] at h
      obtain rfl : hd = pr := by injection h
      exact ⟨List.mem_cons_self _ _, hr⟩
    · rw [findMatchingPair, if_neg hr] at h
      obtain ⟨h1, h2⟩ := ih h
      exact ⟨List.mem_cons_of_mem _ h1, h2⟩

theorem replacements_snd (cfg : Config) (a : String) (pr : String × String)
    (h : pr ∈ generate_transcript_link_replacements cfg a) :
    pr.2 = "\\1\n\n" ++ generate_link_format cfg a := by
  simp only [generate_transcript_link_replacements, List.mem_flatMap,
    List.mem_cons, List.not_mem_nil, or_false] at h
  obtain ⟨ext, _, hm⟩ := h
  rcases hm with h | h | h | h <;> rw [h]

theorem research_exists (r : RE) (s : String) (h : research r s = true) :
    ∃ b m rest, firstMatch r s.data = some (b, m, rest) := by
  unfold research at h
  rw [Option.isSome_iff_exists] at h
  obtain ⟨⟨b, m, rest⟩, hx⟩ := h
  exact ⟨b, m, rest, hx⟩

theorem resubS_data (r : RE) (repl s : String) (b m rest : List Char)
    (hfm : firstMatch r s.data = some (b, m, rest)) :
    (resubS r repl s).data =
      b ++ expandTemplate m repl.data ++
        resubGo s.data.length r repl.data rest := by
  show (resubGo (s.data.length + 1) r repl.data s.data) = _
  rw [resubGo, hfm]

/-- After a successful substitution the note contains the LinkMarker,
provided the rendered link text contains it and has no backslash (true
of the built-in link styles). -/
theorem linked_contains_marker (cfg : Config) (a c c' : String)
    (hlink : (a ++ "_transcript").data <:+: (generate_link_format cfg a).data)
    (hbs : '\\' ∉ (generate_link_format cfg a).data)
    (h : add_transcript_link_to_note cfg c a = .linked c') :
    (a ++ "_transcript").data <:+: c'.data := by
  unfold add_transcript_link_to_note at h
  split at h
  · exact absurd h (by simp)
  · split at h
    next pr hpr =>
      obtain ⟨hmem, hres⟩ := findMatchingPair_spec _ _ _ hpr
      have hsnd := replacements_snd cfg a pr hmem
      obtain ⟨b, m, rest, hfm⟩ := research_exists _ _ hres
      have hc' : c' = resubS (compile pr.1) pr.2 c := by
        injection h with h'
        exact h'.symm
      have hdata : pr.2.data =
          '\\' :: '1' :: '\n' :: '\n' :: (generate_link_format cfg a).data := by
        rw [hsnd, String.data_append]
        rfl
      obtain ⟨u, v, huv⟩ := hlink
      refine ⟨b ++ m ++ '\n' :: '\n' :: u, v ++ resubGo c.data.length (compile pr.1) pr.2.data rest, ?_⟩
      rw [hc', resubS_data _ _ _ _ _ _ hfm, hdata,
        expandTemplate_marker _ _ hbs, ← huv]
      simp
    next hpr => exact absurd h (by simp)

theorem inject_already (cfg : Config) (a c : String)
    (h : (a ++ "_transcript").data <:+: c.data) :
    add_transcript_link_to_note cfg c a = .alreadyLinked := by
  unfold add_transcript_link_to_note
  rw [if_pos (show containsSubstrB c (a ++ "_transcript") = true from
    decide_eq_true h)]

/-- Claim C2: the Link Injector is idempotent: a second run on the same
note/media-stem pair leaves the content of the first run unchanged, and
a note already containing the LinkMarker substring `<stem>_transcript`
yields `AlreadyLinked` with no modification, before any pattern work.
The two hypotheses state that the rendered link text contains the
LinkMarker and no backslash — true of the wikilink and standard styles. -/
theorem inject_idempotent (cfg : Config) (a c : String)
    (hlink : (a ++ "_transcript").data <:+: (generate_link_format cfg a).data)
    (hbs : '\\' ∉ (generate_link_format cfg a).data) :
    injectState cfg a (injectState cfg a c) = injectState cfg a c ∧
    ((a ++ "_transcript").data <:+: c.data →
      add_transcript_link_to_note cfg c a = .alreadyLinked) := by
  constructor
  · cases hr : add_transcript_link_to_note cfg c a with
    | linked c' =>
      have h2 := inject_already cfg a c'
        (linked_contains_marker cfg a c c' hlink hbs hr)
      simp [injectState, hr, h2]
    | alreadyLinked => simp [injectState, hr]
    | noEmbedFound => simp [injectState, hr]
  · exact inject_already cfg a c

/-- Witness for C2 at the end-to-end note and stem. -/
theorem inject_idempotent_witness :
    (("talk" ++ "_transcript").data <:+:
        (generate_link_format cfgTest "talk").data) ∧
    '\\' ∉ (generate_link_format cfgTest "talk").data ∧
    (injectState cfgTest "talk" (injectState cfgTest "talk" "![[talk.mp3]]") =
        injectState cfgTest "talk" "![[talk.mp3]]" ∧
      (("talk" ++ "_transcript").data <:+: ("![[talk.mp3]]" : String).data →
        add_transcript_link_to_note cfgTest "![[talk.mp3]]" "talk" =
          .alreadyLinked)) :=
  ⟨by decide, by decide,
    inject_idempotent cfgTest "talk" "![[talk.mp3]]" (by decide) (by decide)⟩

/-- Counterexample to Claim C1 as stated: on a note containing the same
embed twice, a single run leaves the LinkMarker substring twice —
`re.sub` without a count substitutes every occurrence of the first
matching pattern, not only the first occurrence. -/
theorem c1_counterexample :
    countSub ("talk" ++ "_transcript").data
      (injectState cfgTest "talk" c1content).data = 2 := by decide

/-- Claim C1 (amended): the injector substitutes every occurrence of
the first matching embed pattern, so after one successful run the
LinkMarker can occur once per embed occurrence; the marker is present
after any successful run, and every subsequent run returns
`AlreadyLinked` and changes nothing, so the count never grows across
runs. -/
theorem inject_marker_stable (cfg : Config) (a c c' : String)
    (hlink : (a ++ "_transcript").data <:+: (generate_link_format cfg a).data)
    (hbs : '\\' ∉ (generate_link_format cfg a).data)
    (h : add_transcript_link_to_note cfg c a = .linked c') :
    containsSubstrB c' (a ++ "_transcript") = true ∧
    add_transcript_link_to_note cfg c' a = .alreadyLinked := by
  have hm := linked_contains_marker cfg a c c' hlink hbs h
  exact ⟨by unfold containsSubstrB; exact decide_eq_true hm,
    inject_already cfg a c' hm⟩

/-- Witness for the amended C1 at the doubled-embed note. -/
theorem inject_marker_stable_witness :
    (("talk" ++ "_transcript").data <:+:
        (generate_link_format cfgTest "talk").data) ∧
    '\\' ∉ (generate_link_format cfgTest "talk").data ∧
    add_transcript_link_to_note cfgTest c1content "talk" =
      .linked (injectState cfgTest "talk" c1content) ∧
    (containsSubstrB (injectState cfgTest "talk" c1content)
        ("talk" ++ "_transcript") = true ∧
      add_transcript_link_to_note cfgTest
        (injectState cfgTest "talk" c1content) "talk" = .alreadyLinked) :=
  ⟨by decide, by decide, by decide,
    inject_marker_stable cfgTest "talk" c1content
      (injectState cfgTest "talk" c1content) (by decide) (by decide) (by decide)⟩

/-- Claim C3: the code violates the linking invariant for the
folder-prefixed standard image-style embed.  The Note Scanner's
patterns match `![alt](Audio/talk.mp3)`, but
`generate_transcript_link_replacements` emits no replacement pair for
that form, so the injector returns `noEmbedFound` (logging a warning),
the linking phase leaves the note unchanged, and the LinkMarker is
absent after the run. -/
theorem c3_folder_image_uncovered :
    find_notes_with_audio cfgTest [c3note] "talk" = [c3note] ∧
    add_transcript_link_to_note cfgTest c3note.content "talk" = .noEmbedFound ∧
    link_transcripts_to_notes cfgTest ["talk_transcript.md"] [c3note] = [c3note] ∧
    containsSubstrB c3note.content ("talk" ++ "_transcript") = false := by
  refine ⟨by decide, by decide, by decide, by decide⟩

/-- Claim C9: the end-to-end linking scenario.  A vault note with body
`![[talk.mp3]]` and transcript `talk_transcript.md` is rewritten to the
matched embed, two newlines and the wikilink-style transcript link, and
a second linking run leaves it unchanged; the three link styles render
as specified, with the custom style formatting the user template and
falling back to the wikilink rendering when the template fails. -/
theorem c9_end_to_end_and_styles :
    link_transcripts_to_notes cfgTest ["talk_transcript.md"] [c9note] =
      [{ c9note with content := c9linked }] ∧
    link_transcripts_to_notes cfgTest ["talk_transcript.md"]
        [{ c9note with content := c9linked }] =
      [{ c9note with content := c9linked }] ∧
    c9linked = "![[talk.mp3]]" ++ "\n\n" ++ "📝 **Transcript:** [[talk_transcript]]" ∧
    (∀ p a, generate_link_format
        { cfgTest with linkFormatStyle := .wikilink, prefixText := p } a =
      p ++ " [[" ++ a ++ "_transcript]]") ∧
    (∀ p a, generate_link_format
        { cfgTest with linkFormatStyle := .standard, prefixText := p } a =
      p ++ " [" ++ a ++ "_transcript](" ++ a ++ "_transcript.md)") ∧
    (∀ p a t, generate_link_format
        { cfgTest with
          linkFormatStyle := .custom, prefixText := p,
          linkTemplate := some t } a =
      replaceAll t "{audio_name}" a) ∧
    (∀ p a, generate_link_format
        { cfgTest with
          linkFormatStyle := .custom, prefixText := p,
          linkTemplate := none } a =
      p ++ " [[" ++ a ++ "_transcript]]") := by
  refine ⟨by decide, by decide, by decide, ?_, ?_, ?_, ?_⟩ <;>
    (intros; rfl)

/-- Counterexample to Claim C5 as stated: with audio folder name
`Au.dio` the generated folder-prefixed pattern matches
`![[auzdio/talk.mp3]]`, a text in which the literal folder name never
occurs (even case-insensitively) — the folder name is interpolated into
the pattern without escaping, so its `.` acts as a wildcard. -/
theorem c5_folder_unescaped :
    (generate_audio_embed_patterns cfgDot "talk").any
      (fun p => research (compile p) "![[auzdio/talk.mp3]]") = true ∧
    ¬ (("au.dio" : String).data.map Char.toLower <:+:
        ("![[auzdio/talk.mp3]]" : String).data.map Char.toLower) := by
  refine ⟨by decide, by decide⟩

/-- Counterexample to Claim C10's stem derivation as stated: the code
uses `str.replace("_transcript", "")`, which removes every occurrence,
so the transcript of a media file named `a_transcript_b` is searched
under the stem `a_b` instead of `a_transcript_b`. -/
theorem c10_replace_all :
    transcriptAudioName "a_transcript_b_transcript.md" = "a_b" ∧
    ("a_b" : String) ≠ "a_transcript_b" := by
  refine ⟨by decide, by decide⟩

/-- Claim C4: when the non-blocking exclusive lock cannot be acquired,
`run` returns before any discovery, transcription or linking step: the
entire file-system state — notes, transcripts, media and temp files —
is returned unchanged. -/
theorem run_lock_contention_noop (env : RunEnv) (w : Vault)
    (h : env.lockAvailable = false) : run env w = w := by
  simp [run, h]

/-- Witness for C4: a contended environment over a populated vault. -/
theorem run_lock_contention_noop_witness :
    envLockBusy.lockAvailable = false ∧ run envLockBusy vaultBusyDemo = vaultBusyDemo :=
  ⟨by decide, run_lock_contention_noop envLockBusy vaultBusyDemo (by decide)⟩

/-- Counterexample to Claim C7 as stated: when the engine exits with a
non-zero status, `transcribe_file` returns without reaching the cleanup
loop, and the scratch file `talk.json` written by the engine survives
the call. -/
theorem c7_engine_failure_scratch_kept :
    (transcribe_file cfgTest (.runs 1 ["talk.json"]) true fileTalk vault0).2.tempFiles
      = ["talk.json"] ∧
    tempGlobMatch (fileStem fileTalk.name) "talk.json" = true := by
  refine ⟨by decide, by decide⟩

/-- Claim C7 (amended): the scratch cleanup runs exactly on the branch
where the engine exited with status zero and its structured output file
`<stem>.json` exists; there it removes every `<stem>.*` temp file, on
both the success and the parse-failure paths.  On a non-zero exit the
temp directory keeps everything, including what the engine wrote. -/
theorem transcribe_scratch_cleanup (cfg : Config) (parseOk : Bool)
    (file : FSFile) (w : Vault) (rc : Int) (written : List String) :
    ((rc = 0 ∧ (fileStem file.name ++ ".json") ∈ w.tempFiles ++ written) →
      ∀ n ∈ (transcribe_file cfg (.runs rc written) parseOk file w).2.tempFiles,
        tempGlobMatch (fileStem file.name) n = false) ∧
    (rc ≠ 0 →
      (transcribe_file cfg (.runs rc written) parseOk file w).2.tempFiles =
        w.tempFiles ++ written) := by
  constructor
  · rintro ⟨rfl, hjson⟩ n hn
    simp only [transcribe_file, if_neg (by simp : ¬(0 : Int) ≠ 0),
      if_pos hjson] at hn
    cases parseOk <;> cases hcm : cfg.autoMoveFiles <;>
      simp_all [List.mem_filter] <;> tauto
  · intro hrc
    simp [transcribe_file, if_pos hrc]

/-- Witness for the amended C7: a successful engine run with a scratch
file and a parse failure still cleans the stem's temp files. -/
theorem transcribe_scratch_cleanup_witness :
    ((0 : Int) = 0 ∧ (fileStem fileTalk.name ++ ".json") ∈
        vault0.tempFiles ++ ["talk.json", "talk.txt"]) ∧
    (∀ n ∈ (transcribe_file cfgTest (.runs 0 ["talk.json", "talk.txt"]) false
        fileTalk vault0).2.tempFiles,
      tempGlobMatch (fileStem fileTalk.name) n = false) ∧
    ((1 : Int) ≠ 0) ∧
    (transcribe_file cfgTest (.runs 1 ["talk.txt"]) false fileTalk
        vault0).2.tempFiles = vault0.tempFiles ++ ["talk.txt"] :=
  ⟨⟨rfl, by decide⟩,
    (transcribe_scratch_cleanup cfgTest false fileTalk vault0 0
      ["talk.json", "talk.txt"]).1 ⟨rfl, by decide⟩,
    by decide,
    (transcribe_scratch_cleanup cfgTest false fileTalk vault0 1
      ["talk.txt"]).2 (by decide)⟩

/-- Claim C8: Media Discovery returns exactly the walked files whose
lower-cased extension is in the supported set, whose parent directory
is not the audio-storage folder, and whose expected transcript is
absent or not skipped; in particular files inside the audio folder are
never returned. -/
theorem find_media_files_spec (cfg : Config) (walk : List FSFile)
    (transcripts : List String) (f : FSFile) :
    (f ∈ find_media_files cfg walk transcripts ↔
      f ∈ walk ∧ strToLower (fileSuffix f.name) ∈ cfg.supportedExtensions ∧
      f.parent ≠ audioFolderPath cfg ∧
      ((fileStem f.name ++ "_transcript.md") ∉ transcripts ∨
        cfg.skipExistingTranscripts = false)) ∧
    (f.parent = audioFolderPath cfg → f ∉ find_media_files cfg walk transcripts) := by
  have hiff : f ∈ find_media_files cfg walk transcripts ↔
      f ∈ walk ∧ strToLower (fileSuffix f.name) ∈ cfg.supportedExtensions ∧
      f.parent ≠ audioFolderPath cfg ∧
      ((fileStem f.name ++ "_transcript.md") ∉ transcripts ∨
        cfg.skipExistingTranscripts = false) := by
    simp [find_media_files, mediaCandidate, List.mem_filter,
      Bool.and_eq_true, decide_eq_true_iff, Bool.or_eq_true,
      Bool.not_eq_true']
    tauto
  exact ⟨hiff, fun hp hmem => ((hiff.mp hmem).2.2.1 hp)⟩

theorem floor_div_sixty (t : ℚ) : ⌊t / 60⌋ = ⌊t⌋ / 60 := by
  have h60 : (0:ℚ) < 60 := by norm_num
  have hfle : ((⌊t⌋ : ℤ) : ℚ) ≤ t := Int.floor_le t
  have hlt : t < (⌊t⌋ : ℚ) + 1 := Int.lt_floor_add_one t
  have hed : (60 : ℤ) * (⌊t⌋ / 60) + ⌊t⌋ % 60 = ⌊t⌋ := Int.ediv_add_emod ⌊t⌋ 60
  have hm0 : (0:ℤ) ≤ ⌊t⌋ % 60 := Int.emod_nonneg _ (by norm_num)
  have hm60 : ⌊t⌋ % 60 < 60 := Int.emod_lt_of_pos _ (by norm_num)
  have hedq : (⌊t⌋ : ℚ) =
      60 * ((⌊t⌋ / 60 : ℤ) : ℚ) + ((⌊t⌋ % 60 : ℤ) : ℚ) := by
    exact_mod_cast hed.symm
  have hm0q : (0:ℚ) ≤ ((⌊t⌋ % 60 : ℤ) : ℚ) := by exact_mod_cast hm0
  have hm60q : ((⌊t⌋ % 60 : ℤ) : ℚ) < 60 := by exact_mod_cast hm60
  have hm59 : ⌊t⌋ % 60 ≤ 59 := by omega
  have hm59q : ((⌊t⌋ % 60 : ℤ) : ℚ) ≤ 59 := by exact_mod_cast hm59
  rw [Int.floor_eq_iff]
  constructor
  · rw [le_div_iff₀ h60]
    linarith
  · rw [div_lt_iff₀ h60]
    linarith

/-- Claim C6: for non-negative segment start time `t`, the rendered
timestamp equals `**[M:SS]**` with `M = ⌊t / 60⌋` printed unpadded and
`SS = ⌊t⌋ mod 60` zero-padded to two digits. -/
theorem timestamp_formula (t : ℚ) (h : 0 ≤ t) :
    segment_timestamp t =
      "**[" ++ toString (⌊t / 60⌋) ++ ":" ++ pad02 (⌊t⌋ % 60) ++ "]**" := by
  have hq60 : (0:ℚ) < 60 := by norm_num
  have hcancel : t / 60 * 60 = t := div_mul_cancel₀ t (by norm_num)
  have hminq : (0:ℚ) ≤ (⌊t / 60⌋ : ℚ) := by
    exact_mod_cast Int.floor_nonneg.mpr (by positivity)
  have hmin : pyTrunc (pyFloorDiv t 60) = ⌊t / 60⌋ := by
    unfold pyTrunc pyFloorDiv
    rw [if_pos hminq]
    exact Int.floor_intCast _
  have hfloorle : ((⌊t / 60⌋ : ℤ) : ℚ) ≤ t / 60 := Int.floor_le (t / 60)
  have hsec : pyTrunc (pyMod t 60) = ⌊t⌋ % 60 := by
    unfold pyTrunc pyMod pyFloorDiv
    have h0 : (0:ℚ) ≤ t - 60 * (⌊t / 60⌋ : ℚ) := by nlinarith
    rw [if_pos h0]
    have hrw : t - 60 * ((⌊t / 60⌋ : ℤ) : ℚ) =
        t - ((60 * ⌊t / 60⌋ : ℤ) : ℚ) := by push_cast; ring
    rw [hrw, Int.floor_sub_int, floor_div_sixty, Int.emod_def]
  unfold segment_timestamp
  rw [hmin, hsec]

section
attribute [local semireducible] Rat.add Rat.mul Rat.inv Rat.sub

/-- Witness for C6 at the three start times listed by the spec. -/
theorem timestamp_formula_witness :
    (0:ℚ) ≤ 754/10 ∧
    segment_timestamp (754/10) =
      "**[" ++ toString (⌊(754/10 : ℚ) / 60⌋) ++ ":" ++
        pad02 (⌊(754/10 : ℚ)⌋ % 60) ++ "]**" ∧
    segment_timestamp (754/10) = "**[1:15]**" ∧
    segment_timestamp 5 = "**[0:05]**" ∧
    segment_timestamp 0 = "**[0:00]**" :=
  ⟨by decide, timestamp_formula (754/10) (by decide),
    by decide, by decide, by decide⟩

end

theorem replaceL_nil (fuel : Nat) (needle rep : List Char) :
    replaceL fuel needle rep [] = [] := by
  cases fuel <;> rfl

theorem replaceL_strip (needle rep base : List Char) (hn : needle ≠ [])
    (fuel : Nat) (hf : base.length + needle.length ≤ fuel)
    (hno : ∀ i < base.length,
      ¬ needle.isPrefixOf ((base ++ needle).drop i) = true) :
    replaceL fuel needle rep (base ++ needle) = base ++ rep := by
  induction base generalizing fuel with
  | nil =>
    obtain ⟨c, cs, rfl⟩ : ∃ c cs, needle = c :: cs := by
      cases needle with
      | nil => exact absurd rfl hn
      | cons c cs => exact ⟨c, cs, rfl⟩
    obtain ⟨f, rfl⟩ : ∃ f, fuel = f + 1 := by
      cases fuel with
      | zero => simp at hf
      | succ f => exact ⟨f, rfl⟩
    rw [List.nil_append, replaceL,
      if_pos ⟨(isPrefixOf_eq_iff _ _).mpr List.prefix_rfl, hn⟩]
    simp [replaceL_nil, List.drop_length]
  | cons c b' ih =>
    obtain ⟨f, rfl⟩ : ∃ f, fuel = f + 1 := by
      cases fuel with
      | zero => simp at hf
      | succ f => exact ⟨f, rfl⟩
    have h0 : ¬ needle.isPrefixOf (c :: (b' ++ needle)) = true := by
      have := hno 0 (by simp)
      simpa using this
    have hf' : b'.length + needle.length ≤ f := by
      simp only [List.length_cons] at hf
      omega
    rw [List.cons_append, replaceL, if_neg (fun hand => h0 hand.1),
      ih f hf' (fun i hi => by simpa using hno (i + 1) (by simpa using hi))]
    rfl

theorem fileStem_append_md (l : List Char) (h : l ≠ []) :
    fileStem (String.mk (l ++ (".md" : String).data)) = String.mk l := by
  have hlen : 0 < l.length := List.length_pos.mpr h
  have hfind : rfindDot (l ++ ['.', 'm', 'd']) = some l.length := by
    unfold rfindDot
    have hrev : (l ++ ['.', 'm', 'd']).reverse =
        'd' :: 'm' :: '.' :: l.reverse := by
      rw [List.reverse_append]
      rfl
    rw [hrev]
    have hidx : List.findIdx? (fun c => c = '.')
        ('d' :: 'm' :: '.' :: l.reverse) = some 2 := by
      simp [List.findIdx?_cons]
    rw [hidx]
    simp [List.length_append]
  unfold fileStem
  rw [show (String.mk (l ++ (".md" : String).data)).data =
      l ++ ['.', 'm', 'd'] from rfl, hfind]
  show (if 0 < l.length ∧ l.length < (l ++ ['.', 'm', 'd']).length - 1
      then String.mk (List.take l.length (l ++ ['.', 'm', 'd']))
      else String.mk (l ++ (".md" : String).data)) = String.mk l
  rw [if_pos ⟨hlen, by simp [List.length_append]⟩,
    show l.length = l.length + 0 from rfl, List.take_append]
  simp

/-- Claim C10 (amended): the pattern generator emits the direct embed
pattern for every extension in the configured supported set (not only
the transcribed file's extension), so a note embedding the stem with a
different supported extension is scanned and linked (witnessed on
`interview.wav` against transcript `interview_transcript.md`); the stem
is derived from the transcript file name by `str.replace`, which
removes every `_transcript` occurrence and agrees with stripping the
suffix exactly when no earlier occurrence exists in the name. -/
theorem c10_amended_coverage (cfg : Config) (a ext : String)
    (hext : ext ∈ cfg.supportedExtensions) (base : List Char)
    (hno : ∀ i < base.length,
      ¬ ("_transcript" : String).data.isPrefixOf
          ((base ++ ("_transcript" : String).data).drop i) = true) :
    directEmbedPattern a ext ∈ generate_audio_embed_patterns cfg a ∧
    transcriptAudioName
        (String.mk (base ++ ("_transcript.md" : String).data)) =
      String.mk base ∧
    link_transcripts_to_notes cfgTest ["interview_transcript.md"] [c10note] =
      [{ c10note with content :=
        "![[interview.wav]]\n\n📝 **Transcript:** [[interview_transcript]]" }] := by
  refine ⟨List.mem_flatMap.mpr ⟨ext, hext, by simp⟩, ?_, by decide⟩
  have hsplit : base ++ ("_transcript.md" : String).data =
      (base ++ ("_transcript" : String).data) ++ (".md" : String).data := by
    simp
  rw [show transcriptAudioName
        (String.mk (base ++ ("_transcript.md" : String).data)) =
      replaceAll (fileStem (String.mk (base ++ ("_transcript.md" : String).data)))
        "_transcript" "" from rfl]
  rw [hsplit, fileStem_append_md _ (by simp)]
  show String.mk (replaceL (base ++ ("_transcript" : String).data).length
    ("_transcript" : String).data [] (base ++ ("_transcript" : String).data)) =
    String.mk base
  rw [replaceL_strip _ _ _ (by decide) _ (by simp) hno]
  simp

/-- Witness for the amended C10: extension `.wav` from the supported
set and the stem `talk`, whose name contains no early `_transcript`
occurrence. -/
theorem c10_amended_coverage_witness :
    (".wav" : String) ∈ cfgTest.supportedExtensions ∧
    (∀ i < ("talk" : String).data.length,
      ¬ ("_transcript" : String).data.isPrefixOf
          ((("talk" : String).data ++ ("_transcript" : String).data).drop i)
        = true) ∧
    (directEmbedPattern "interview" ".wav" ∈
        generate_audio_embed_patterns cfgTest "interview" ∧
      transcriptAudioName
          (String.mk (("talk" : String).data ++
            ("_transcript.md" : String).data)) =
        String.mk ("talk" : String).data ∧
      link_transcripts_to_notes cfgTest ["interview_transcript.md"] [c10note] =
        [{ c10note with content :=
          "![[interview.wav]]\n\n📝 **Transcript:** [[interview_transcript]]" }]) :=
  ⟨by decide, by decide,
    c10_amended_coverage cfgTest "interview" ".wav" (by decide)
      ("talk" : String).data (by decide)⟩

/-! ## Lexer, parser and matcher characterization on escaped literals -/

theorem reEscape_append (x y : List Char) :
    reEscape (x ++ y) = reEscape x ++ reEscape y := by
  simp [reEscape]

theorem reEscape_length_ge (l : List Char) : l.length ≤ (reEscape l).length := by
  induction l with
  | nil => simp [reEscape]
  | cons c l' ih =>
    by_cases hc : c ∈ reSpecial <;>
      simp [reEscape, hc] at ih ⊢ <;> omega

theorem lexPatF_nil (f : Nat) : lexPatF f [] = [] := by
  cases f <;> rfl

theorem lexPatF_escaped (f : Nat) (d : Char) (rest : List Char) :
    lexPatF (f + 1) ('\\' :: d :: rest) = .tchar d :: lexPatF f rest := by
  simp [lexPatF]

theorem lexPatF_plain (f : Nat) (c : Char) (rest : List Char)
    (h1 : c ≠ '\\') (h2 : c ≠ '(') (h3 : c ≠ ')') (h4 : c ≠ '.')
    (h5 : c ≠ '*') :
    lexPatF (f + 1) (c :: rest) = .tchar c :: lexPatF f rest := by
  simp only [lexPatF, if_neg h1, if_neg h2, if_neg h3, if_neg h4, if_neg h5]

theorem lexPatF_reEscape (l : List Char) : ∀ (f : Nat) (rest : List Char),
    l.length ≤ f →
    lexPatF f (reEscape l ++ rest) =
      l.map Tok.tchar ++ lexPatF (f - l.length) rest := by
  induction l with
  | nil =>
    intro f rest h
    simp [reEscape]
  | cons c l' ih =>
    intro f rest h
    obtain ⟨g, rfl⟩ : ∃ g, f = g + 1 := ⟨f - 1, by simp at h; omega⟩
    have hg : l'.length ≤ g := by simp at h; omega
    by_cases hc : c ∈ reSpecial
    · have hre : reEscape (c :: l') = '\\' :: c :: reEscape l' := by
        simp [reEscape, hc]
      rw [hre, List.cons_append, List.cons_append, lexPatF_escaped,
        ih g rest hg]
      simp [Nat.succ_sub_succ]
    · have hre : reEscape (c :: l') = c :: reEscape l' := by
        simp [reEscape, hc]
      have h1 : c ≠ '\\' := fun e => hc (e ▸ (by decide : '\\' ∈ reSpecial))
      have h2 : c ≠ '(' := fun e => hc (e ▸ (by decide : '(' ∈ reSpecial))
      have h3 : c ≠ ')' := fun e => hc (e ▸ (by decide : ')' ∈ reSpecial))
      have h4 : c ≠ '.' := fun e => hc (e ▸ (by decide : '.' ∈ reSpecial))
      have h5 : c ≠ '*' := fun e => hc (e ▸ (by decide : '*' ∈ reSpecial))
      rw [hre, List.cons_append, lexPatF_plain g c _ h1 h2 h3 h4 h5,
        ih g rest hg]
      simp [Nat.succ_sub_succ]

theorem applyStar_tchar (atom : RE) (L : List Char) :
    applyStar atom (L.map Tok.tchar) = (atom, L.map Tok.tchar) := by
  cases L <;> rfl

theorem parseToks_lit (L : List Char) : ∀ f, L.length + 1 ≤ f →
    parseToks f (L.map Tok.tchar) = (litSeq L, []) := by
  induction L with
  | nil =>
    intro f h
    obtain ⟨g, rfl⟩ : ∃ g, f = g + 1 := ⟨f - 1, by omega⟩
    rfl
  | cons c L' ih =>
    intro f h
    obtain ⟨g, rfl⟩ : ∃ g, f = g + 1 := ⟨f - 1, by omega⟩
    have hg := ih g (by simp at h; omega)
    simp only [List.map_cons, parseToks, applyStar_tchar, hg]
    rfl

theorem reSize_litSeq (L : List Char) :
    reSize (litSeq L) = 2 * L.length + 1 := by
  induction L with
  | nil => rfl
  | cons c L' ih =>
    show reSize (.seq (.char c) (litSeq L')) = _
    simp [reSize, ih]
    omega

theorem matchL_seq (f : Nat) (a b : RE) (s : List Char) :
    matchL (f + 1) (.seq a b) s = (matchL f a s).flatMap (matchL f b) := rfl

theorem matchL_char_cons (f : Nat) (c x : Char) (xs : List Char) :
    matchL (f + 1) (.char c) (x :: xs) =
      if x.toLower = c.toLower then [xs] else [] := rfl

theorem matchL_char_nil (f : Nat) (c : Char) :
    matchL (f + 1) (.char c) [] = [] := rfl

theorem matchL_lit (L : List Char) : ∀ (f : Nat) (s : List Char),
    L.length + 1 ≤ f →
    matchL f (litSeq L) s =
      if (L.map Char.toLower).isPrefixOf (s.map Char.toLower)
      then [s.drop L.length] else [] := by
  induction L with
  | nil =>
    intro f s h
    obtain ⟨g, rfl⟩ : ∃ g, f = g + 1 := ⟨f - 1, by omega⟩
    simp [litSeq, matchL, List.isPrefixOf]
  | cons c L' ih =>
    intro f s h
    obtain ⟨g, rfl⟩ : ∃ g, f = g + 1 := ⟨f - 1, by omega⟩
    have hg : L'.length + 1 ≤ g := by simp at h; omega
    obtain ⟨g', rfl⟩ : ∃ g', g = g' + 1 := ⟨g - 1, by omega⟩
    show matchL (g' + 1 + 1) (.seq (.char c) (litSeq L')) s = _
    rw [matchL_seq]
    cases s with
    | nil =>
      rw [matchL_char_nil]
      simp [List.isPrefixOf]
    | cons x xs =>
      rw [matchL_char_cons]
      by_cases hx : x.toLower = c.toLower
      · rw [if_pos hx]
        simp only [List.flatMap_cons, List.flatMap_nil, List.append_nil]
        rw [ih (g' + 1) xs hg]
        simp [List.isPrefixOf, hx]
      · rw [if_neg hx]
        have hcx : (c.toLower == x.toLower) = false := by
          simp
          exact fun e => hx e.symm
        simp [List.isPrefixOf, hcx]

theorem matchList_lit (L : List Char) (s : List Char) :
    matchList (litSeq L) s =
      if (L.map Char.toLower).isPrefixOf (s.map Char.toLower)
      then [s.drop L.length] else [] := by
  unfold matchList
  exact matchL_lit L _ s (by rw [reSize_litSeq]; omega)

theorem firstMatch_isSome_iff (r : RE) : ∀ (s : List Char),
    (firstMatch r s).isSome = true ↔
      ∃ t, t <:+ s ∧ matchList r t ≠ [] := by
  intro s
  induction s with
  | nil =>
    unfold firstMatch
    cases h : (matchList r []).head? with
    | some rest =>
      simp only [Option.isSome_some, true_iff]
      exact ⟨[], List.suffix_rfl, by
        intro he
        rw [he] at h
        simp at h⟩
    | none =>
      simp only [Option.isSome_none]
      constructor
      · intro he
        exact absurd he (by simp)
      · rintro ⟨t, hts, hne⟩
        rw [List.suffix_nil.mp hts] at hne
        exact (hne (List.head?_eq_none_iff.mp h)).elim
  | cons c cs ih =>
    unfold firstMatch
    cases h : (matchList r (c :: cs)).head? with
    | some rest =>
      simp only [Option.isSome_some, true_iff]
      exact ⟨c :: cs, List.suffix_rfl, by
        intro he
        rw [he] at h
        simp at h⟩
    | none =>
      have hnil : matchList r (c :: cs) = [] := List.head?_eq_none_iff.mp h
      constructor
      · intro hs
        obtain ⟨t, hts, hne⟩ := ih.mp (by
          cases hfm : firstMatch r cs with
          | some x =>
            simp
          | none => rw [hfm] at hs; simp at hs)
        exact ⟨t, hts.trans (List.suffix_cons c cs), hne⟩
      · rintro ⟨t, hts, hne⟩
        rcases List.suffix_cons_iff.mp hts with rfl | hts'
        · exact absurd hnil hne
        · have := ih.mpr ⟨t, hts', hne⟩
          cases hfm : firstMatch r cs with
          | some x =>
            obtain ⟨b, m, rest⟩ := x
            simp
          | none => rw [hfm] at this; simp at this

theorem directEmbedPattern_data (a ext : String) :
    (directEmbedPattern a ext).data =
      reEscape (("![[" ++ a ++ ext ++ "]]" : String).data) := by
  have h1 : ("!\\[\\[" : String).data = reEscape (("![[" : String).data) := by
    decide
  have h2 : ("\\]\\]" : String).data = reEscape (("]]" : String).data) := by
    decide
  have h3 : ∀ x : String, (reEscapeS x).data = reEscape x.data := fun _ => rfl
  simp only [directEmbedPattern, String.data_append, h1, h2, h3,
    ← reEscape_append, List.append_assoc]
  rw [show ['!', '\\', '[', '\\', '['] = reEscape ['!', '[', '['] from rfl,
    show ['\\', ']', '\\', ']'] = reEscape [']', ']'] from rfl,
    ← reEscape_append, ← reEscape_append]
  simp [List.append_assoc]

theorem compile_directEmbedPattern (a ext : String) :
    compile (directEmbedPattern a ext) =
      litSeq (("![[" ++ a ++ ext ++ "]]" : String).data) := by
  set L := ("![[" ++ a ++ ext ++ "]]" : String).data with hLdef
  unfold compile
  rw [directEmbedPattern_data]
  have hlex : lexPat (reEscape L) = L.map Tok.tchar := by
    unfold lexPat
    have h := lexPatF_reEscape L (reEscape L).length [] (reEscape_length_ge L)
    rw [List.append_nil] at h
    rw [h, lexPatF_nil, List.append_nil]
  rw [← hLdef, hlex, parseToks_lit L _ (by
    have := reEscape_length_ge L
    omega)]

/-- Claim C5 (amended): the stem and extension are escaped, so the
direct embed pattern matches a note's content exactly when the literal
embed text `![[<stem><ext>]]` occurs in it case-insensitively — nothing
else matches; the audio folder name, by contrast, is interpolated
unescaped (see the counterexample). -/
theorem direct_pattern_literal_iff (a ext s : String) :
    research (compile (directEmbedPattern a ext)) s = true ↔
      ("![[" ++ a ++ ext ++ "]]" : String).data.map Char.toLower <:+:
        s.data.map Char.toLower := by
  set L := ("![[" ++ a ++ ext ++ "]]" : String).data with hLdef
  unfold research
  rw [compile_directEmbedPattern]
  rw [firstMatch_isSome_iff (litSeq L) s.data]
  constructor
  · rintro ⟨t, hts, hne⟩
    rw [matchList_lit] at hne
    by_cases hp : (L.map Char.toLower).isPrefixOf (t.map Char.toLower)
    · refine List.infix_iff_prefix_suffix.mpr
        ⟨t.map Char.toLower, (isPrefixOf_eq_iff _ _).mp hp, hts.map _⟩
    · rw [if_neg hp] at hne
      exact absurd rfl hne
  · intro h
    obtain ⟨u, v, huv⟩ := h
    refine ⟨s.data.drop u.length, List.drop_suffix _ _, ?_⟩
    rw [matchList_lit, if_pos ?_]
    · simp
    · have hdrop : (s.data.map Char.toLower).drop u.length =
          L.map Char.toLower ++ v := by
        rw [← huv, List.append_assoc, List.drop_left]
      rw [isPrefixOf_eq_iff, List.map_drop, hdrop]
      exact List.prefix_append _ _

/-- Witness for the amended C5: the escaped direct pattern for stem
`talk` matches a note containing the literal embed with different
casing. -/
theorem direct_pattern_literal_iff_witness :
    research (compile (directEmbedPattern "talk" ".mp3"))
      "see ![[TALK.mp3]] here" = true :=
  (direct_pattern_literal_iff "talk" ".mp3" "see ![[TALK.mp3]] here").mpr
    (by decide)

/-- Witness for C8: a media file sitting inside the audio folder is not
returned by discovery. -/
theorem find_media_files_spec_witness :
    (⟨"vault/Audio", "old.mp3"⟩ : FSFile).parent = audioFolderPath cfgTest ∧
    (⟨"vault/Audio", "old.mp3"⟩ : FSFile) ∉
      find_media_files cfgTest [⟨"vault/Audio", "old.mp3"⟩, fileTalk] [] :=
  ⟨by decide,
    (find_media_files_spec cfgTest [⟨"vault/Audio", "old.mp3"⟩, fileTalk] []
      ⟨"vault/Audio", "old.mp3"⟩).2 (by decide)⟩
